import Mathlib

/-!
Verification of the EverMindAgent runtime core: a shallow embedding of the
Actor Worker (`actor.ts`), the Agent run loop (`agent.ts`), the server actor
registry (`server.ts`), the buffer-write pipeline, and the Agenda-backed job
scheduler (`scheduler/scheduler.ts`), together with theorems settling the
behavioural claims about them.

Conventions:
- TypeScript classes with mutable fields become Lean structures threaded
  through pure functions.
- External collaborators (the LLM client, tool implementations, the document
  store, the Agenda job runtime, `JSON.parse`) are modelled as parameters:
  traces of outcomes and failure oracles.
- Asynchronous code is embedded by making every `await` boundary explicit;
  where a claim depends on the order in which promise continuations resume,
  that order is derived from the JavaScript rule that reactions to a promise
  run in the order they were registered, and is documented at the definition.
-/

namespace EMA

/-! ## Data model (schema; spec section 3)

The `schema` module itself is not among the provided sources; the shapes
below follow spec section 3 and the uses in `actor.ts` / `agent.ts`
(`input.type !== "text"`, `{role:"tool", id, name, result}`, ...). -/

/-- Content value: the core only supports the `text` variant; other variants
(images etc.) are accepted at the boundary but rejected by validation. -/
inductive Content where
  | text (t : String)
  | other (tag : String)
deriving Repr, DecidableEq

/-- Whether a content value has `type === "text"`. -/
def Content.isText : Content → Bool
  | .text _ => true
  | .other _ => false

/-- The text carried by a text content (empty for other variants). -/
def Content.textOf : Content → String
  | .text t => t
  | .other _ => ""

/-- ToolResult from `tools/base`: `{success, content?, error?}`. -/
structure ToolResult where
  success : Bool
  content : Option String := none
  error : Option String := none
deriving Repr, DecidableEq

/-- ToolCall as attached to a model message: `{id?, name, args}`.
`args` is kept as an opaque serialized value. -/
structure ToolCall where
  id : Option String := none
  name : String
  args : String := ""
deriving Repr, DecidableEq

/-- Message variants (spec section 3): user, model and tool messages. -/
inductive Message where
  | user (contents : List Content)
  | model (contents : List Content) (toolCalls : List ToolCall)
  | tool (id : Option String) (name : String) (result : ToolResult)
deriving Repr, DecidableEq

/-! ## Agent run loop (`agent.ts`, `Agent.mainLoop`)

The LLM client is external: a run is driven by a trace of `generate`
outcomes.  Tools are external: each tool is a name plus an execution
function that either returns a `ToolResult` or throws.  `JSON.parse` is
external: it is modelled by a `parseJson` parameter returning `none` when
the argument is not valid JSON (i.e. when `JSON.parse` would throw); the
parsed reply is kept opaque as a string. -/

/-- The model message part of an `LLMResponse`. -/
structure ModelMsg where
  contents : List Content := []
  toolCalls : List ToolCall := []
deriving Repr, DecidableEq

/-- Outcome of one `llm.generate` call, as observed by `mainLoop`'s
`try`/`catch`: a response, an abort error (`isAbortError`), a
`RetryExhaustedError`, or any other thrown error. -/
inductive LLMOutcome where
  | ok (message : ModelMsg) (finishReason : String)
  | abortError
  | retryExhausted (attempts : Nat) (lastError : String)
  | otherError (msg : String)
deriving Repr, DecidableEq

/-- Outcome of one `tool.execute` call: a result, or a thrown error with
class name, message and stack trace. -/
inductive ExecOutcome where
  | ok (result : ToolResult)
  | thrown (name msg stack : String)
deriving Repr, DecidableEq

/-- A tool: name plus execution behaviour `(args, toolContext) → outcome`. -/
structure Tool where
  name : String
  execute : String → Option String → ExecOutcome

/-- Agent events (`AgentEventMap`): `runFinished{ok, msg, error?}` and
`emaReplyReceived{reply}`; `hasError` records whether the `error` field was
populated. -/
inductive AgentEvt where
  | runFinished (ok : Bool) (msg : String) (hasError : Bool)
  | emaReplyReceived (reply : String)
deriving Repr, DecidableEq

/-- The external inputs consumed during one run: the trace of LLM outcomes
(`llm[k]` is the outcome of the k-th `generate` call), and for each awaited
operation whether the worker requested an abort while it was in flight
(`abort()` can only take effect at `await` boundaries since the runtime is
single-threaded). -/
structure RunInput where
  llm : List LLMOutcome := []
  llmAbortFlag : List Bool := []
  execAbortFlag : List Bool := []

/-- Mutable state of `mainLoop`: the context manager's messages, the events
emitted so far (in order), the number of `generate` calls and of
`tool.execute` calls performed, and the `abortRequested` flag. -/
structure LoopState where
  messages : List Message
  events : List AgentEvt
  llmCalls : Nat
  execCalls : Nat
  abortRequested : Bool
deriving Repr, DecidableEq

/-- Append an emitted event (`this.events.emit`). -/
def emitA (st : LoopState) (e : AgentEvt) : LoopState :=
  { st with events := st.events ++ [e] }

/-- `finishAborted()`: emit `runFinished{ok:false, msg:"Aborted", error}`. -/
def finishAborted (st : LoopState) : LoopState :=
  emitA st (.runFinished false "Aborted" true)

/-- `ContextManager.addToolMessage`: push `{role:"tool", id, name, result}`. -/
def addToolMessage (st : LoopState) (result : ToolResult) (name : String)
    (toolCallId : Option String) : LoopState :=
  { st with messages := st.messages ++ [.tool toolCallId name result] }

/-- `ContextManager.addModelMessage`: push the response's model message. -/
def addModelMessage (st : LoopState) (m : ModelMsg) : LoopState :=
  { st with messages := st.messages ++ [.model m.contents m.toolCalls] }

/-- The tool dictionary `new Map(tools.map(t => [t.name, t]))`: on duplicate
names the last entry wins, hence lookup searches the reversed list. -/
def lookupTool (tools : List Tool) (name : String) : Option Tool :=
  tools.reverse.find? (fun t => t.name == name)

/-- Packaging of an error thrown by `tool.execute` into a failure
`ToolResult` (class name, message and stack trace). -/
def packToolError (name msg stack : String) : ToolResult :=
  { success := false
    error := some ("Tool execution failed: " ++ name ++ ": " ++ msg ++
      "\n\nTraceback:\n" ++ stack) }

/-- How the processing of one model message's tool-call list ends: all calls
processed, the run aborted, or an error thrown out of the loop (the
`JSON.parse` in the `ema_reply` special case is outside the tool-execution
`try`/`catch`, so its error propagates). -/
inductive ToolsExit where
  | completed
  | abortedRun
  | threwRun (msg : String)
deriving Repr, DecidableEq

/-- Resolution and execution of a single tool call: unknown names yield the
failure result `Unknown tool: <name>`; a thrown execution error is caught
and packaged.  Executing a tool is an `await` point, so the abort flag may
be raised while it is in flight (`execAbortFlag`). -/
def resolveAndExec (tools : List Tool) (toolContext : Option String)
    (execAbortFlag : List Bool) (st : LoopState) (tc : ToolCall) :
    LoopState × ToolResult :=
  match lookupTool tools tc.name with
  | none =>
    (st, ({ success := false, error := some ("Unknown tool: " ++ tc.name) }
      : ToolResult))
  | some tool =>
    let flag := execAbortFlag.getD st.execCalls false
    let stx := { st with
      execCalls := st.execCalls + 1
      abortRequested := st.abortRequested || flag }
    match tool.execute tc.args toolContext with
    | .ok r => (stx, r)
    | .thrown n m s => (stx, packToolError n m s)

/-- The `for (const toolCall of response.message.toolCalls)` loop of
`mainLoop`.  Per call: abort check; resolve and execute the tool; on a
successful `ema_reply` result, `JSON.parse` the content (propagating a
parse failure out of the loop), emit `emaReplyReceived` and clear the stored
content; finally append the tool message and continue. -/
def runToolCalls (tools : List Tool) (toolContext : Option String)
    (parseJson : String → Option String) (execAbortFlag : List Bool) :
    LoopState → List ToolCall → LoopState × ToolsExit
  | st, [] => (st, .completed)
  | st, tc :: rest =>
    if st.abortRequested then
      (finishAborted st, .abortedRun)
    else
      let st1 := (resolveAndExec tools toolContext execAbortFlag st tc).1
      let result := (resolveAndExec tools toolContext execAbortFlag st tc).2
      if result.success && tc.name == "ema_reply" then
        match result.content with
        | none => (st1, .threwRun "JSON.parse: unexpected undefined")
        | some c =>
          match parseJson c with
          | none => (st1, .threwRun ("JSON.parse: " ++ c))
          | some reply =>
            let st2 := emitA st1 (.emaReplyReceived reply)
            runToolCalls tools toolContext parseJson execAbortFlag
              (addToolMessage st2 { result with content := none } tc.name tc.id) rest
      else
        runToolCalls tools toolContext parseJson execAbortFlag
          (addToolMessage st1 result tc.name tc.id) rest

/-- How `mainLoop` returned. -/
inductive ExitKind where
  | aborted
  | retryGone
  | llmError
  | natural
  | stepLimit
  | threw (msg : String)
deriving Repr, DecidableEq

/-- Whether the run ended by an error thrown out of `mainLoop` (the run's
promise rejects). -/
def ExitKind.isThrew : ExitKind → Bool
  | .threw _ => true
  | _ => false

/-- The step-limit message `Task couldn't be completed after <M> steps.`. -/
def stepLimitMsg (maxSteps : Nat) : String :=
  "Task couldn't be completed after " ++ toString maxSteps ++ " steps."

/-- The `RetryExhaustedError` message built by `mainLoop`. -/
def retryGoneMsg (attempts : Nat) (lastError : String) : String :=
  "LLM call failed after " ++ toString attempts ++ " retries. Last error: " ++
    lastError

/-- The bookkeeping of one `llm.generate` call: the call counter advances and
the abort flag may have been raised while the call was in flight. -/
def genStep (input : RunInput) (st : LoopState) : LoopState :=
  { st with
    llmCalls := st.llmCalls + 1
    abortRequested :=
      st.abortRequested || input.llmAbortFlag.getD st.llmCalls false }

/-- The `while (step < maxSteps)` loop of `mainLoop`, with `fuel` the number
of remaining steps.  Loop body: abort check; `generate` (whose outcome
selects the abort / retry-exhausted / other-error / success paths); a second
abort check; append the model message; finish successfully when there are no
tool calls; otherwise process them and continue.  When fuel runs out the
step-limit `runFinished` is emitted. -/
def mainLoopGo (maxSteps : Nat) (tools : List Tool) (toolContext : Option String)
    (parseJson : String → Option String) (input : RunInput) :
    Nat → LoopState → LoopState × ExitKind
  | 0, st => (emitA st (.runFinished false (stepLimitMsg maxSteps) true), .stepLimit)
  | fuel + 1, st =>
    if st.abortRequested then
      (finishAborted st, .aborted)
    else
      match input.llm.getD st.llmCalls (.otherError "no response") with
      | .abortError => (finishAborted (genStep input st), .aborted)
      | .retryExhausted attempts lastError =>
        (emitA (genStep input st)
          (.runFinished false (retryGoneMsg attempts lastError) true),
          .retryGone)
      | .otherError _ => (genStep input st, .llmError)
      | .ok message finishReason =>
        if (genStep input st).abortRequested then
          (finishAborted (genStep input st), .aborted)
        else
          if message.toolCalls.isEmpty then
            (emitA (addModelMessage (genStep input st) message)
              (.runFinished true finishReason false), .natural)
          else
            match runToolCalls tools toolContext parseJson input.execAbortFlag
                (addModelMessage (genStep input st) message)
                message.toolCalls with
            | (st2, .completed) =>
              mainLoopGo maxSteps tools toolContext parseJson input fuel st2
            | (st2, .abortedRun) => (st2, .aborted)
            | (st2, .threwRun m) => (st2, .threw m)

/-- Result of one agent run. -/
structure RunResult where
  messages : List Message
  events : List AgentEvt
  llmCalls : Nat
  exit : ExitKind
deriving Repr, DecidableEq

/-- `Agent.mainLoop` on an initial message list (`runWithState` installs the
state and `run` resets `abortRequested`). -/
def mainLoop (maxSteps : Nat) (tools : List Tool) (toolContext : Option String)
    (parseJson : String → Option String) (input : RunInput)
    (initMessages : List Message) : RunResult :=
  let res := mainLoopGo maxSteps tools toolContext parseJson input maxSteps
    { messages := initMessages, events := [], llmCalls := 0, execCalls := 0
      abortRequested := false }
  { messages := res.1.messages, events := res.1.events
    llmCalls := res.1.llmCalls, exit := res.2 }

/-- Count of `runFinished` events in a list. -/
def countRunFinished (evts : List AgentEvt) : Nat :=
  evts.countP (fun e => match e with | .runFinished _ _ _ => true | _ => false)

/-- Count of `emaReplyReceived` events in a list. -/
def countEmaReply (evts : List AgentEvt) : Nat :=
  evts.countP (fun e => match e with | .emaReplyReceived _ => true | _ => false)

/-- Number of `runFinished` events emitted by a run with the given exit: one,
except when the LLM failed with a non-abort non-retry-exhausted error (the
run stops silently) or when an error was thrown out of the loop. -/
def exitRunFinishedCount : ExitKind → Nat
  | .llmError => 0
  | .threw _ => 0
  | _ => 1

/-! ### Lemmas about the agent loop -/

theorem countRunFinished_append (a b : List AgentEvt) :
    countRunFinished (a ++ b) = countRunFinished a + countRunFinished b :=
  List.countP_append _ _ _

theorem resolveAndExec_events (tools : List Tool) (ctx : Option String)
    (flags : List Bool) (st : LoopState) (tc : ToolCall) :
    (resolveAndExec tools ctx flags st tc).1.events = st.events ∧
    (resolveAndExec tools ctx flags st tc).1.llmCalls = st.llmCalls ∧
    (resolveAndExec tools ctx flags st tc).1.messages = st.messages := by
  unfold resolveAndExec
  cases hlook : lookupTool tools tc.name with
  | none => simp
  | some tool => cases hexec : tool.execute tc.args ctx <;> simp [hexec]

/-- Events emitted while processing a tool-call list: a `runFinished` is
added exactly when the processing aborted the run; `llmCalls` is untouched. -/
theorem runToolCalls_spec (tools : List Tool) (ctx : Option String)
    (parse : String → Option String) (flags : List Bool) (tcs : List ToolCall) :
    ∀ st : LoopState,
      ∃ d, (runToolCalls tools ctx parse flags st tcs).1.events = st.events ++ d ∧
        countRunFinished d =
          (if (runToolCalls tools ctx parse flags st tcs).2 = .abortedRun
            then 1 else 0) ∧
        (runToolCalls tools ctx parse flags st tcs).1.llmCalls = st.llmCalls := by
  induction tcs with
  | nil =>
    intro st
    exact ⟨[], by simp [runToolCalls, countRunFinished]⟩
  | cons tc rest ih =>
    intro st
    by_cases habort : st.abortRequested = true
    · refine ⟨[.runFinished false "Aborted" true], ?_⟩
      rw [runToolCalls]
      simp [habort, finishAborted, emitA, countRunFinished]
    · obtain ⟨hev, hllm, _⟩ := resolveAndExec_events tools ctx flags st tc
      by_cases hema :
          ((resolveAndExec tools ctx flags st tc).2.success &&
            (tc.name == "ema_reply")) = true
      · cases hcontent : (resolveAndExec tools ctx flags st tc).2.content with
        | none =>
          refine ⟨[], ?_⟩
          rw [runToolCalls]
          simp [habort, hema, hcontent, hev, hllm, countRunFinished]
        | some c =>
          cases hparse : parse c with
          | none =>
            refine ⟨[], ?_⟩
            rw [runToolCalls]
            simp [habort, hema, hcontent, hparse, hev, hllm, countRunFinished]
          | some reply =>
            obtain ⟨d, hd, hcount, hcalls⟩ := ih
              (addToolMessage
                (emitA (resolveAndExec tools ctx flags st tc).1
                  (.emaReplyReceived reply))
                { (resolveAndExec tools ctx flags st tc).2 with content := none }
                tc.name tc.id)
            refine ⟨.emaReplyReceived reply :: d, ?_, ?_, ?_⟩
            · rw [runToolCalls]
              simp only [habort, if_false, Bool.false_eq_true, hema, if_true,
                hcontent, hparse]
              simpa [addToolMessage, emitA, hev] using hd
            · rw [runToolCalls]
              simp only [habort, if_false, Bool.false_eq_true, hema, if_true,
                hcontent, hparse]
              simpa [countRunFinished] using hcount
            · rw [runToolCalls]
              simp only [habort, if_false, Bool.false_eq_true, hema, if_true,
                hcontent, hparse]
              simpa [addToolMessage, emitA, hllm] using hcalls
      · obtain ⟨d, hd, hcount, hcalls⟩ := ih
          (addToolMessage (resolveAndExec tools ctx flags st tc).1
            (resolveAndExec tools ctx flags st tc).2 tc.name tc.id)
        refine ⟨d, ?_, ?_, ?_⟩
        · rw [runToolCalls]
          simp only [habort, if_false, Bool.false_eq_true, hema]
          simpa [addToolMessage, hev] using hd
        · rw [runToolCalls]
          simp only [habort, if_false, Bool.false_eq_true, hema]
          simpa using hcount
        · rw [runToolCalls]
          simp only [habort, if_false, Bool.false_eq_true, hema]
          simpa [addToolMessage, hllm] using hcalls

/-- Events and LLM-call count of the main loop: the events added by a run
segment contain exactly `exitRunFinishedCount` many `runFinished` events, at
most `fuel` LLM calls are made, and a step-limit exit ends the event list
with the step-limit `runFinished`. -/
theorem mainLoopGo_spec (M : Nat) (tools : List Tool) (ctx : Option String)
    (parse : String → Option String) (input : RunInput) :
    ∀ (fuel : Nat) (st : LoopState),
      ∃ d, (mainLoopGo M tools ctx parse input fuel st).1.events =
          st.events ++ d ∧
        countRunFinished d =
          exitRunFinishedCount (mainLoopGo M tools ctx parse input fuel st).2 ∧
        (mainLoopGo M tools ctx parse input fuel st).1.llmCalls ≤
          st.llmCalls + fuel ∧
        ((mainLoopGo M tools ctx parse input fuel st).2 = .stepLimit →
          ∃ pre, d = pre ++ [.runFinished false (stepLimitMsg M) true]) := by
  have hgenev : ∀ st : LoopState, (genStep input st).events = st.events := by
    intro st; simp [genStep]
  have hgenllm : ∀ st : LoopState, (genStep input st).llmCalls = st.llmCalls + 1 := by
    intro st; simp [genStep]
  intro fuel
  induction fuel with
  | zero =>
    intro st
    refine ⟨[.runFinished false (stepLimitMsg M) true], ?_⟩
    simp [mainLoopGo, emitA, countRunFinished, exitRunFinishedCount]
  | succ fuel ih =>
    intro st
    by_cases habort : st.abortRequested = true
    · have hstep : mainLoopGo M tools ctx parse input (fuel + 1) st =
          (finishAborted st, .aborted) := by
        rw [mainLoopGo]
        simp [habort]
      refine ⟨[.runFinished false "Aborted" true], ?_⟩
      rw [hstep]
      simp [finishAborted, emitA, countRunFinished, exitRunFinishedCount]
    · have habort1 : st.abortRequested = false := by simpa using habort
      cases houtcome : input.llm.getD st.llmCalls (.otherError "no response") with
      | abortError =>
        have hstep : mainLoopGo M tools ctx parse input (fuel + 1) st =
            (finishAborted (genStep input st), .aborted) := by
          rw [mainLoopGo]
          simp only [habort1, Bool.false_eq_true, if_false, houtcome]
        refine ⟨[.runFinished false "Aborted" true], ?_⟩
        rw [hstep]
        refine ⟨by simp [finishAborted, emitA, hgenev], by
          simp [countRunFinished, exitRunFinishedCount], ?_, by intro h; cases h⟩
        simp [finishAborted, emitA, hgenllm]
      | retryExhausted attempts lastError =>
        have hstep : mainLoopGo M tools ctx parse input (fuel + 1) st =
            (emitA (genStep input st)
              (.runFinished false (retryGoneMsg attempts lastError) true),
              .retryGone) := by
          rw [mainLoopGo]
          simp only [habort1, Bool.false_eq_true, if_false, houtcome]
        refine ⟨[.runFinished false (retryGoneMsg attempts lastError) true], ?_⟩
        rw [hstep]
        refine ⟨by simp [emitA, hgenev], by
          simp [countRunFinished, exitRunFinishedCount], ?_, by intro h; cases h⟩
        simp [emitA, hgenllm]
      | otherError m =>
        have hstep : mainLoopGo M tools ctx parse input (fuel + 1) st =
            (genStep input st, .llmError) := by
          rw [mainLoopGo]
          simp only [habort1, Bool.false_eq_true, if_false, houtcome]
        refine ⟨[], ?_⟩
        rw [hstep]
        refine ⟨by simp [hgenev], by
          simp [countRunFinished, exitRunFinishedCount], ?_, by intro h; cases h⟩
        simp [hgenllm]
      | ok message finishReason =>
        by_cases habort2 : (genStep input st).abortRequested = true
        · have hstep : mainLoopGo M tools ctx parse input (fuel + 1) st =
              (finishAborted (genStep input st), .aborted) := by
            rw [mainLoopGo]
            simp only [habort1, Bool.false_eq_true, if_false, houtcome, habort2,
              if_true]
          refine ⟨[.runFinished false "Aborted" true], ?_⟩
          rw [hstep]
          refine ⟨by simp [finishAborted, emitA, hgenev], by
            simp [countRunFinished, exitRunFinishedCount], ?_, by intro h; cases h⟩
          simp [finishAborted, emitA, hgenllm]
        · have habort2f : (genStep input st).abortRequested = false := by
            simpa using habort2
          by_cases hempty : message.toolCalls.isEmpty = true
          · have hstep : mainLoopGo M tools ctx parse input (fuel + 1) st =
                (emitA (addModelMessage (genStep input st) message)
                  (.runFinished true finishReason false), .natural) := by
              rw [mainLoopGo]
              simp only [habort1, Bool.false_eq_true, if_false, houtcome,
                habort2f, hempty, if_true]
            refine ⟨[.runFinished true finishReason false], ?_⟩
            rw [hstep]
            refine ⟨by simp [emitA, addModelMessage, hgenev], by
              simp [countRunFinished, exitRunFinishedCount], ?_,
              by intro h; cases h⟩
            simp [emitA, addModelMessage, hgenllm]
          · have hemptyf : message.toolCalls.isEmpty = false := by
              simpa using hempty
            rcases hrun : runToolCalls tools ctx parse input.execAbortFlag
                (addModelMessage (genStep input st) message) message.toolCalls
              with ⟨st3, ex⟩
            obtain ⟨d1, hd1, hc1, hl1⟩ :=
              runToolCalls_spec tools ctx parse input.execAbortFlag
                message.toolCalls (addModelMessage (genStep input st) message)
            rw [hrun] at hd1 hc1 hl1
            simp only [addModelMessage, hgenev, hgenllm] at hd1 hl1
            have hd1e : st3.events = st.events ++ d1 := by
              simpa [hgenev] using hd1
            have hl1e : st3.llmCalls = st.llmCalls + 1 := by
              simpa [hgenllm] using hl1
            cases ex with
            | completed =>
              have hstep : mainLoopGo M tools ctx parse input (fuel + 1) st =
                  mainLoopGo M tools ctx parse input fuel st3 := by
                rw [mainLoopGo]
                simp only [habort1, Bool.false_eq_true, if_false, houtcome,
                  habort2f, hemptyf, hrun]
              obtain ⟨d2, hd2, hc2, hl2, hlast⟩ := ih st3
              refine ⟨d1 ++ d2, ?_, ?_, ?_, ?_⟩
              · rw [hstep, hd2, hd1e, List.append_assoc]
              · rw [hstep, countRunFinished_append, hc2]
                simp only [hc1]
                simp
              · rw [hstep]
                rw [hl1e] at hl2
                omega
              · rw [hstep]
                intro hsl
                obtain ⟨pre, hpre⟩ := hlast hsl
                exact ⟨d1 ++ pre, by rw [hpre, List.append_assoc]⟩
            | abortedRun =>
              have hstep : mainLoopGo M tools ctx parse input (fuel + 1) st =
                  (st3, .aborted) := by
                rw [mainLoopGo]
                simp only [habort1, Bool.false_eq_true, if_false, houtcome,
                  habort2f, hemptyf, hrun]
              refine ⟨d1, ?_, ?_, ?_, ?_⟩
              · rw [hstep]
                exact hd1e
              · rw [hstep]
                simp only [hc1]
                simp [exitRunFinishedCount]
              · rw [hstep]
                simp only [hl1e]
                omega
              · rw [hstep]
                intro hsl
                cases hsl
            | threwRun m =>
              have hstep : mainLoopGo M tools ctx parse input (fuel + 1) st =
                  (st3, .threw m) := by
                rw [mainLoopGo]
                simp only [habort1, Bool.false_eq_true, if_false, houtcome,
                  habort2f, hemptyf, hrun]
              refine ⟨d1, ?_, ?_, ?_, ?_⟩
              · rw [hstep]
                exact hd1e
              · rw [hstep]
                simp only [hc1]
                simp [exitRunFinishedCount]
              · rw [hstep]
                simp only [hl1e]
                omega
              · rw [hstep]
                intro hsl
                cases hsl

/-! ### Claim C2: bounded steps and `runFinished` emission -/

theorem exitRunFinishedCount_le_one (ex : ExitKind) :
    exitRunFinishedCount ex ≤ 1 := by
  cases ex <;> simp [exitRunFinishedCount]

/-- C2 (amended): for `maxSteps = M` the loop performs at most `M` LLM
`generate` calls and emits at most one `runFinished` per run; it emits
exactly one unless the run ended by a non-abort non-retry-exhausted LLM
error (which is logged and ends the run silently) or by an error thrown out
of the loop; when the loop exits because the step count reached `M`, the
last emitted event is `runFinished{ok:false}` with message
`Task couldn't be completed after <M> steps.` and an error. -/
theorem agent_bounded_steps (M : Nat) (tools : List Tool) (ctx : Option String)
    (parse : String → Option String) (input : RunInput) (init : List Message) :
    (mainLoop M tools ctx parse input init).llmCalls ≤ M ∧
    countRunFinished (mainLoop M tools ctx parse input init).events =
      exitRunFinishedCount (mainLoop M tools ctx parse input init).exit ∧
    countRunFinished (mainLoop M tools ctx parse input init).events ≤ 1 ∧
    ((mainLoop M tools ctx parse input init).exit = .stepLimit →
      (mainLoop M tools ctx parse input init).events.getLast? =
        some (.runFinished false (stepLimitMsg M) true)) := by
  obtain ⟨d, hd, hc, hl, hlast⟩ := mainLoopGo_spec M tools ctx parse input M
    { messages := init, events := [], llmCalls := 0, execCalls := 0
      abortRequested := false }
  simp only [mainLoop]
  refine ⟨by simpa using hl, ?_, ?_, ?_⟩
  · rw [hd] at *
    simpa using hc
  · rw [hd] at *
    simp only [List.nil_append] at *
    rw [hc]
    exact exitRunFinishedCount_le_one _
  · intro hsl
    obtain ⟨pre, hpre⟩ := hlast hsl
    rw [hd, hpre]
    simp

/-- Witness for C2 at a concrete step-limited run: `maxSteps = 2`, an LLM
that always requests a no-op tool call. -/
def noopTool : Tool :=
  { name := "noop"
    execute := fun _ _ => .ok { success := true, content := some "ok" } }

/-- A run input whose LLM always returns a single `noop` tool call. -/
def stepLimitInput : RunInput :=
  { llm := [.ok { toolCalls := [{ name := "noop" }] } "tool_calls",
      .ok { toolCalls := [{ name := "noop" }] } "tool_calls"] }

theorem agent_bounded_steps_witness :
    (mainLoop 2 [noopTool] none some stepLimitInput []).llmCalls ≤ 2 ∧
    countRunFinished (mainLoop 2 [noopTool] none some stepLimitInput []).events =
      exitRunFinishedCount (mainLoop 2 [noopTool] none some stepLimitInput []).exit ∧
    countRunFinished (mainLoop 2 [noopTool] none some stepLimitInput []).events ≤ 1 ∧
    (mainLoop 2 [noopTool] none some stepLimitInput []).events.getLast? =
      some (.runFinished false (stepLimitMsg 2) true) := by
  obtain ⟨h1, h2, h3, h4⟩ :=
    agent_bounded_steps 2 [noopTool] none some stepLimitInput []
  exact ⟨h1, h2, h3, h4 rfl⟩

/-- Counterexample to C2 as stated: when the first `generate` call fails
with an error that is neither a cancellation nor `RetryExhausted`, the run
performs one LLM call but emits no `runFinished` at all (the loop logs and
returns), so a run does not always emit exactly one `runFinished`. -/
theorem agent_runFinished_missing_cex :
    (mainLoop 1 [] none some { llm := [.otherError "network failure"] }
      []).llmCalls = 1 ∧
    countRunFinished
      (mainLoop 1 [] none some { llm := [.otherError "network failure"] }
        []).events = 0 :=
  ⟨rfl, rfl⟩

/-! ### Claim C8: tool failure containment -/

/-- C8: for a tool call processed by the loop (no abort pending), an unknown
tool name produces the failure result `Unknown tool: <name>`, and a thrown
execution error is caught and packaged (class, message, stack trace) into a
failure result; in both cases the tool message is appended and the loop
continues with the remaining calls instead of terminating the run. -/
theorem tool_failure_containment (tools : List Tool) (ctx : Option String)
    (parse : String → Option String) (flags : List Bool) (st : LoopState)
    (tc : ToolCall) (rest : List ToolCall)
    (habort : st.abortRequested = false) :
    (lookupTool tools tc.name = none →
      runToolCalls tools ctx parse flags st (tc :: rest) =
        runToolCalls tools ctx parse flags
          (addToolMessage st
            { success := false, error := some ("Unknown tool: " ++ tc.name) }
            tc.name tc.id) rest) ∧
    (∀ t nm ms stk, lookupTool tools tc.name = some t →
      t.execute tc.args ctx = .thrown nm ms stk →
      runToolCalls tools ctx parse flags st (tc :: rest) =
        runToolCalls tools ctx parse flags
          (addToolMessage
            { st with
              execCalls := st.execCalls + 1
              abortRequested := flags.getD st.execCalls false }
            (packToolError nm ms stk) tc.name tc.id) rest) := by
  constructor
  · intro hlook
    rw [runToolCalls]
    simp only [habort, Bool.false_eq_true, if_false]
    simp [resolveAndExec, hlook]
  · intro t nm ms stk hlook hexec
    rw [runToolCalls]
    simp only [habort, Bool.false_eq_true, if_false]
    simp [resolveAndExec, hlook, hexec, packToolError, habort]

/-- A tool whose execution throws, used as a concrete witness. -/
def throwingTool : Tool :=
  { name := "boom"
    execute := fun _ _ => .thrown "TypeError" "bad input" "at boom:1" }

/-- The initial loop state over an empty context. -/
def loopState0 : LoopState :=
  { messages := [], events := [], llmCalls := 0, execCalls := 0
    abortRequested := false }

theorem tool_failure_containment_witness :
    (runToolCalls [throwingTool] none some [] loopState0
        [{ name := "nosuch" }] =
      runToolCalls [throwingTool] none some []
        (addToolMessage loopState0
          { success := false, error := some ("Unknown tool: " ++ "nosuch") }
          "nosuch" none) []) ∧
    (runToolCalls [throwingTool] none some [] loopState0
        [{ name := "boom" }] =
      runToolCalls [throwingTool] none some []
        (addToolMessage
          { loopState0 with execCalls := 1, abortRequested := false }
          (packToolError "TypeError" "bad input" "at boom:1") "boom" none) []) := by
  constructor
  · exact (tool_failure_containment [throwingTool] none some [] loopState0
      { name := "nosuch" } [] rfl).1 rfl
  · exact (tool_failure_containment [throwingTool] none some [] loopState0
      { name := "boom" } [] rfl).2 throwingTool "TypeError" "bad input"
      "at boom:1" rfl rfl

/-! ### Claim C10: `ema_reply` JSON parse failure propagates -/

/-- C10: when the `ema_reply` tool returns a successful result whose content
is not valid JSON, the `JSON.parse` performed while emitting
`emaReplyReceived` lies outside the tool-execution `try`/`catch`, so the
parse error propagates out of the main loop: the run ends thrown (its
promise rejects), no `runFinished` and no `emaReplyReceived` is emitted for
the run, and no tool message is appended for that call. -/
theorem ema_reply_parse_failure (M : Nat) (tools : List Tool)
    (ctx : Option String) (parse : String → Option String) (input : RunInput)
    (init : List Message) (message : ModelMsg) (fr : String) (tc : ToolCall)
    (t : Tool) (r : ToolResult) (s : String)
    (hM : M ≠ 0)
    (hllm : input.llm.getD 0 (.otherError "no response") = .ok message fr)
    (hflag : input.llmAbortFlag.getD 0 false = false)
    (htc : message.toolCalls = [tc])
    (hname : tc.name = "ema_reply")
    (hlook : lookupTool tools tc.name = some t)
    (hexec : t.execute tc.args ctx = .ok r)
    (hsucc : r.success = true)
    (hcontent : r.content = some s)
    (hparse : parse s = none) :
    (mainLoop M tools ctx parse input init).exit.isThrew = true ∧
    countRunFinished (mainLoop M tools ctx parse input init).events = 0 ∧
    countEmaReply (mainLoop M tools ctx parse input init).events = 0 ∧
    (mainLoop M tools ctx parse input init).messages =
      init ++ [.model message.contents message.toolCalls] := by
  obtain ⟨fuel, rfl⟩ : ∃ f, M = f + 1 := ⟨M - 1, by omega⟩
  rw [hname] at hlook
  simp only [mainLoop, mainLoopGo]
  simp only [genStep]
  simp only [hllm, hflag, htc, hname, hlook, hexec, hsucc, hcontent, hparse,
    runToolCalls, resolveAndExec, addModelMessage, emitA]
  simp [ExitKind.isThrew, countRunFinished, countEmaReply, htc]

/-- A concrete `ema_reply` tool returning a successful result with content
that is not valid JSON. -/
def badEmaTool : Tool :=
  { name := "ema_reply"
    execute := fun _ _ => .ok { success := true, content := some "oops" } }

/-- A run input whose single LLM outcome requests one `ema_reply` call. -/
def badEmaInput : RunInput :=
  { llm := [.ok { toolCalls := [{ name := "ema_reply" }] } "tool_calls"] }

theorem ema_reply_parse_failure_witness :
    (mainLoop 3 [badEmaTool] none (fun _ => none) badEmaInput
      []).exit.isThrew = true ∧
    countRunFinished (mainLoop 3 [badEmaTool] none (fun _ => none) badEmaInput
      []).events = 0 ∧
    countEmaReply (mainLoop 3 [badEmaTool] none (fun _ => none) badEmaInput
      []).events = 0 ∧
    (mainLoop 3 [badEmaTool] none (fun _ => none) badEmaInput []).messages =
      [] ++ [.model [] [{ name := "ema_reply" }]] :=
  ema_reply_parse_failure 3 [badEmaTool] none (fun _ => none) badEmaInput []
    { toolCalls := [{ name := "ema_reply" }] } "tool_calls"
    { name := "ema_reply" } badEmaTool
    { success := true, content := some "oops" } "oops"
    (by simp) rfl rfl rfl rfl rfl rfl rfl rfl rfl

/-! ## Actor Worker (`actor.ts`)

The worker's mutable fields become a state record.  Because the claims
about the worker concern the order of state changes, buffer-write enqueues
and event deliveries, the state additionally carries an action log to which
every primitive operation appends; the log is pure instrumentation and
mirrors the textual order of the statements in the source. -/

/-- The author kind of a persisted conversational turn. -/
inductive BufferKind where
  | user
  | actor
deriving Repr, DecidableEq

/-- BufferMessage (spec section 3): a message enriched for persistence with
author kind, id, display name, contents and wall-clock time. -/
structure BufferMessage where
  kind : BufferKind
  id : Nat
  name : String
  contents : List Content
  time : Nat
deriving Repr, DecidableEq

/-- Modelled from the spec: `memory/utils.bufferMessageFromUser` is not
among the provided sources; per spec section 4.2 `work` wraps the inputs
into a `BufferMessage(kind=user)` carrying the user's id, display name and
the current wall-clock time. -/
def bufferMessageFromUser (userId : Nat) (userName : String)
    (inputs : List Content) (now : Nat) : BufferMessage :=
  { kind := .user, id := userId, name := userName, contents := inputs
    time := now }

/-- Modelled from the spec: `memory/utils.bufferMessageFromEma` is not among
the provided sources; per spec section 4.2.4 the worker enqueues a
`BufferMessage(kind=actor, contents=text of reply)`. -/
def bufferMessageFromEma (actorId : Nat) (actorName : String)
    (reply : String) (now : Nat) : BufferMessage :=
  { kind := .actor, id := actorId, name := actorName
    contents := [.text reply], time := now }

/-- Modelled from the spec: `memory/utils.bufferMessageToUserMessage` is not
among the provided sources; per spec section 4.2.2 queued batches are
appended to the agent state as user messages. -/
def bufferMessageToUserMessage (m : BufferMessage) : Message :=
  .user m.contents

/-- Modelled from the spec: `memory/utils.bufferMessageToPrompt` is not
among the provided sources; per spec section 4.2.5 a buffer item renders as
`[timestamp] name: text`. -/
def bufferMessageToPrompt (m : BufferMessage) : String :=
  "[" ++ toString m.time ++ "] " ++ m.name ++ ": " ++
    String.join (m.contents.map Content.textOf)

/-- ActorStatus: `idle`, `preparing` or `running`. -/
inductive ActorStatus where
  | idle
  | preparing
  | running
deriving Repr, DecidableEq

/-- The rendering of a status in the `Actor status: <s>.` message. -/
def ActorStatus.render : ActorStatus → String
  | .idle => "idle"
  | .preparing => "preparing"
  | .running => "running"

/-- Actor events (`ActorEventMap`): human-readable `message` events and
forwarded `agent` events. -/
inductive ActorEvt where
  | message (content : String)
  | agent (e : AgentEvt)
deriving Repr, DecidableEq

/-- The per-run agent state as held by the worker (`AgentState`); the tool
set (`config.baseTools`) and the tool context (the fixed actor scope) are
constant configuration and are not tracked. -/
structure AgentStateW where
  systemPrompt : String
  messages : List Message
deriving Repr, DecidableEq

/-- One primitive state action of the worker, in textual source order. -/
inductive WorkerAction where
  | setReplyFlags
  | enqueueWrite (m : BufferMessage)
  | deliver (e : ActorEvt)
deriving Repr, DecidableEq

/-- The identity of one worker: constructor arguments of `ActorWorker`. -/
structure WorkerCtx where
  userId : Nat
  userName : String
  actorId : Nat
  actorName : String
  systemPromptTemplate : String
deriving Repr, DecidableEq

/-- The worker's mutable fields (`currentStatus`, `agentState`, `queue`,
`hasEmaReplyInRun`, `resumeStateAfterAbort`, `currentRunPromise` as
`runActive`) plus the observable history: buffer writes enqueued into the
pipeline (in order), events delivered to subscribers (in order), and the
instrumentation log. -/
structure WorkerState where
  currentStatus : ActorStatus
  agentState : Option AgentStateW
  queue : List BufferMessage
  hasEmaReplyInRun : Bool
  resumeStateAfterAbort : Bool
  runActive : Bool
  pipeline : List BufferMessage
  emitted : List ActorEvt
  log : List WorkerAction
deriving Repr, DecidableEq

/-- `enqueueBufferWrite`: chain the write onto the single-threaded pipeline. -/
def enqueueBufferWrite (st : WorkerState) (m : BufferMessage) : WorkerState :=
  { st with pipeline := st.pipeline ++ [m], log := st.log ++ [.enqueueWrite m] }

/-- `this.events.emit(...)`: synchronous delivery to subscribers. -/
def deliver (st : WorkerState) (e : ActorEvt) : WorkerState :=
  { st with emitted := st.emitted ++ [e], log := st.log ++ [.deliver e] }

/-- `ActorWorker.emitEvent`: when the event is an `agent` event of kind
`emaReplyReceived`, first set `hasEmaReplyInRun := true` and
`resumeStateAfterAbort := false`, then enqueue a buffer write of the actor
reply, and only then deliver the event; all other events are delivered
directly. -/
def emitEvent (cfg : WorkerCtx) (now : Nat) (st : WorkerState)
    (e : ActorEvt) : WorkerState :=
  match e with
  | .agent (.emaReplyReceived reply) =>
    let st1 := { st with hasEmaReplyInRun := true
                         resumeStateAfterAbort := false
                         log := st.log ++ [.setReplyFlags] }
    let st2 := enqueueBufferWrite st1
      (bufferMessageFromEma cfg.actorId cfg.actorName reply now)
    deliver st2 e
  | _ => deliver st e

/-- `setStatus`: update `currentStatus` and emit the status message (the
source emits it directly on `this.events`, bypassing `emitEvent`). -/
def setStatus (st : WorkerState) (s : ActorStatus) : WorkerState :=
  deliver { st with currentStatus := s }
    (.message ("Actor status: " ++ s.render ++ "."))

/-- `isBusy()`: true iff status is not `idle`. -/
def isBusy (st : WorkerState) : Bool :=
  st.currentStatus != .idle

/-- The synchronous prefix of `ActorWorker.work` (lines 148-179): validate
the inputs (empty input lists and non-text contents throw before any state
is touched); then emit the `Received input` message, push the wrapped
`BufferMessage` onto the queue and enqueue its buffer write.  The second
component reports a validation error, or on success whether the worker was
busy (in which case `work` proceeds to abort the current run). -/
def work (cfg : WorkerCtx) (now : Nat) (st : WorkerState)
    (inputs : List Content) : WorkerState × Except String Bool :=
  if inputs.length = 0 then
    (st, .error "No inputs provided")
  else if inputs.any (fun i => !(i.isText)) then
    (st, .error "Only text input is supported currently")
  else
    let input := inputs.headD (.text "")
    let st1 := emitEvent cfg now st
      (.message ("Received input: " ++ input.textOf ++ "."))
    let bm := bufferMessageFromUser cfg.userId cfg.userName inputs now
    let st2 := { st1 with queue := st1.queue ++ [bm] }
    let st3 := enqueueBufferWrite st2 bm
    (st3, .ok (isBusy st3))

/-- Whether a `work` call failed with a validation error. -/
def workFailed : Except String Bool → Bool
  | .error _ => true
  | .ok _ => false

/-! ### Claim C4: reply durability ordering in `emitEvent` -/

/-- C4: for every `emaReplyReceived` agent event passing through the worker,
`emitEvent` performs, in this order: (a) set `hasEmaReplyInRun := true` and
`resumeStateAfterAbort := false`; (b) enqueue a buffer write of the
`BufferMessage(kind=actor)` carrying the reply text; (c) deliver the event
to subscribers — so the reply is never delivered before its buffer write has
been enqueued. -/
theorem reply_durability (cfg : WorkerCtx) (now : Nat) (st : WorkerState)
    (reply : String) :
    (emitEvent cfg now st (.agent (.emaReplyReceived reply))).hasEmaReplyInRun
      = true ∧
    (emitEvent cfg now st (.agent (.emaReplyReceived reply))).resumeStateAfterAbort
      = false ∧
    (emitEvent cfg now st (.agent (.emaReplyReceived reply))).pipeline =
      st.pipeline ++ [bufferMessageFromEma cfg.actorId cfg.actorName reply now] ∧
    (emitEvent cfg now st (.agent (.emaReplyReceived reply))).emitted =
      st.emitted ++ [.agent (.emaReplyReceived reply)] ∧
    (emitEvent cfg now st (.agent (.emaReplyReceived reply))).log =
      st.log ++ [.setReplyFlags,
        .enqueueWrite (bufferMessageFromEma cfg.actorId cfg.actorName reply now),
        .deliver (.agent (.emaReplyReceived reply))] := by
  simp [emitEvent, enqueueBufferWrite, deliver]

/-! ### Claim C6: `work` validation is synchronous and atomic -/

/-- C6: a `work` call with an empty input list, or with any non-text
content, fails with a validation error and leaves the worker state entirely
unchanged (no queue append, no buffer write, no event, no status change). -/
theorem work_validation_atomic (cfg : WorkerCtx) (now : Nat) (st : WorkerState)
    (inputs : List Content)
    (h : inputs = [] ∨ ∃ i ∈ inputs, i.isText = false) :
    (work cfg now st inputs).1 = st ∧
    workFailed (work cfg now st inputs).2 = true := by
  by_cases hnil : inputs.length = 0
  · simp [work, hnil, workFailed]
  · have hany : inputs.any (fun i => !(i.isText)) = true := by
      rcases h with h | ⟨i, hi, hnot⟩
      · exact absurd (by simp [h]) hnil
      · exact List.any_eq_true.mpr ⟨i, hi, by simp [hnot]⟩
    simp [work, hnil, hany, workFailed]

/-- A quiescent worker state. -/
def workerState0 : WorkerState :=
  { currentStatus := .idle, agentState := none, queue := []
    hasEmaReplyInRun := false, resumeStateAfterAbort := false
    runActive := false, pipeline := [], emitted := [], log := [] }

/-- A concrete worker identity. -/
def workerCtx0 : WorkerCtx :=
  { userId := 1, userName := "User", actorId := 2, actorName := "EMA"
    systemPromptTemplate := "You are EMA." }

theorem work_validation_atomic_witness :
    ((work workerCtx0 5 workerState0 []).1 = workerState0 ∧
      workFailed (work workerCtx0 5 workerState0 []).2 = true) ∧
    ((work workerCtx0 5 workerState0 [.other "image"]).1 = workerState0 ∧
      workFailed (work workerCtx0 5 workerState0 [.other "image"]).2 = true) :=
  ⟨work_validation_atomic workerCtx0 5 workerState0 [] (Or.inl rfl),
    work_validation_atomic workerCtx0 5 workerState0 [.other "image"]
      (Or.inr ⟨.other "image", by simp, rfl⟩)⟩

/-! ## Buffer-write pipeline (`enqueueBufferWrite` / `addBuffer`)

`enqueueBufferWrite` chains each write as
`this.bufferWritePromise = this.bufferWritePromise
   .then(() => this.addBuffer(message))
   .catch((error) => { this.logger.error(...); throw error; })`.
A fulfilled chain runs the next `addBuffer`; once a write fails, the chain
is rejected, so every later `.then` handler is skipped (the write never
starts) and every later `.catch` handler re-logs and rethrows the original
error.  Whether a given store write succeeds is external (the document
store) and is modelled by a `fails` oracle. -/

/-- A persisted conversation-store record, as written by `addBuffer`
(lines 232-245): `user` messages carry the author id as `userId`, `actor`
messages as `actorId`; `refId` holds that id. -/
structure ConvEntry where
  conversationId : Nat
  kind : BufferKind
  refId : Nat
  contents : List Content
  createdAt : Nat
deriving Repr, DecidableEq

/-- The record `addBuffer` writes for a buffer message. -/
def addBufferEntry (cid : Nat) (m : BufferMessage) : ConvEntry :=
  match m.kind with
  | .user =>
    { conversationId := cid, kind := .user, refId := m.id
      contents := m.contents, createdAt := m.time }
  | .actor =>
    { conversationId := cid, kind := .actor, refId := m.id
      contents := m.contents, createdAt := m.time }

/-- The store records persisted when the pipeline settles, given the chain
state (`true` = already rejected) on entry: a rejected chain persists
nothing further; a fulfilled chain attempts the next write, rejecting the
chain when it fails. -/
def pipelineWrites (fails : BufferMessage → Bool) (cid : Nat) :
    Bool → List BufferMessage → List ConvEntry
  | _, [] => []
  | true, _ :: rest => pipelineWrites fails cid true rest
  | false, m :: rest =>
    if fails m then pipelineWrites fails cid true rest
    else addBufferEntry cid m :: pipelineWrites fails cid false rest

/-- The persisted records for a sequence of enqueued messages (the chain
starts fulfilled: `bufferWritePromise = Promise.resolve()`). -/
def persistedWrites (fails : BufferMessage → Bool) (cid : Nat)
    (ms : List BufferMessage) : List ConvEntry :=
  pipelineWrites fails cid false ms

/-- The messages whose `addBuffer` call actually starts, in order. -/
def startedWrites (fails : BufferMessage → Bool) :
    Bool → List BufferMessage → List BufferMessage
  | _, [] => []
  | true, _ :: rest => startedWrites fails true rest
  | false, m :: rest => m :: startedWrites fails (fails m) rest

theorem startedWrites_rejected (fails : BufferMessage → Bool)
    (ms : List BufferMessage) : startedWrites fails true ms = [] := by
  induction ms with
  | nil => rfl
  | cons m rest ih => simpa [startedWrites] using ih

/-! ### Claim C3: ordering of the buffer-write pipeline -/

/-- C3 (amended): the writes that execute do so in exactly the enqueue
order, and a write starts only when every earlier enqueued write has
succeeded: the persisted records are precisely the longest prefix of the
enqueued messages whose writes all succeed, in enqueue order, and the
started writes are that prefix plus the first failing write; once a write
fails, every later enqueued write is skipped (never started), with the
original failure re-logged and re-propagated at each of them. -/
theorem pipeline_order (fails : BufferMessage → Bool) (cid : Nat)
    (ms : List BufferMessage) :
    persistedWrites fails cid ms =
      (ms.takeWhile fun m => !(fails m)).map (addBufferEntry cid) ∧
    startedWrites fails false ms =
      (ms.takeWhile fun m => !(fails m)) ++
        ((ms.dropWhile fun m => !(fails m)).take 1) := by
  constructor
  · rw [persistedWrites]
    induction ms with
    | nil => rfl
    | cons m rest ih =>
      by_cases hm : fails m
      · have hrej : pipelineWrites fails cid true rest = [] := by
          clear ih
          induction rest with
          | nil => rfl
          | cons x xs ihx => simpa [pipelineWrites] using ihx
        simp [pipelineWrites, hm, List.takeWhile_cons, hrej]
      · simp [pipelineWrites, hm, List.takeWhile_cons, ih]
  · induction ms with
    | nil => rfl
    | cons m rest ih =>
      by_cases hm : fails m
      · simp [startedWrites, hm, List.takeWhile_cons, List.dropWhile_cons,
          startedWrites_rejected]
      · simp [startedWrites, hm, List.takeWhile_cons, List.dropWhile_cons, ih]

/-- Two concrete buffer messages for the counterexample. -/
def bmsgA : BufferMessage := bufferMessageFromUser 1 "User" [.text "hello"] 10

/-- A second concrete buffer message. -/
def bmsgB : BufferMessage := bufferMessageFromEma 2 "EMA" "hi" 11

/-- A failure oracle under which only the first message's write fails. -/
def failsOnA : BufferMessage → Bool := fun m => m == bmsgA

/-- Counterexample to C3 as stated: when the write of the first enqueued
message fails, the second write — which would itself succeed — is silently
suppressed: it never starts and nothing is persisted, although the claim
requires a later write to proceed (in order) after its predecessor has
failed. -/
theorem pipeline_suppression_cex :
    failsOnA bmsgB = false ∧
    persistedWrites failsOnA 7 [bmsgA, bmsgB] = [] ∧
    startedWrites failsOnA false [bmsgA, bmsgB] = [bmsgA] := by
  refine ⟨by decide, by decide, by decide⟩

/-! ## System prompt assembly (`buildSystemPrompt` / `getBuffer`)

`systemPrompt.replaceAll("\x7bMEMORY_BUFFER\x7d", bufferText)` is the
ECMAScript `String.prototype.replaceAll` with a string pattern and a string
replacement.  Each occurrence is replaced by the `GetSubstitution` expansion
of the replacement: in the replacement string, a dollar followed by a second
dollar yields one dollar, dollar-ampersand yields the matched substring,
dollar-backquote the part of the subject before the match and dollar-quote
the part after it; any other dollar is literal (which also covers the
capture references, kept literally since a string pattern has no capture
groups). -/

/-- The dollar character that starts a substitution pattern. -/
def dollarChar : Char := '$'

/-- The ampersand character of the matched-substring pattern. -/
def ampersandChar : Char := '&'

/-- The backquote character (code point 96) of the preceding-text pattern. -/
def backquoteChar : Char := Char.ofNat 96

/-- The single-quote character (code point 39) of the following-text
pattern. -/
def singleQuoteChar : Char := Char.ofNat 39

/-- ECMAScript `GetSubstitution` for a string pattern (no capture groups):
`str` is the full subject, `position` the match position and `matchedLen`
the length of the matched substring; the argument is the replacement
string being scanned. -/
def getSubstitution (str : List Char) (position matchedLen : Nat) :
    List Char → List Char
  | [] => []
  | c :: rest =>
    if c = dollarChar then
      match rest with
      | [] => [c]
      | d :: rest2 =>
        if d = dollarChar then
          dollarChar :: getSubstitution str position matchedLen rest2
        else if d = ampersandChar then
          (str.drop position).take matchedLen ++
            getSubstitution str position matchedLen rest2
        else if d = backquoteChar then
          str.take position ++ getSubstitution str position matchedLen rest2
        else if d = singleQuoteChar then
          str.drop (position + matchedLen) ++
            getSubstitution str position matchedLen rest2
        else
          dollarChar :: d :: getSubstitution str position matchedLen rest2
    else
      c :: getSubstitution str position matchedLen rest

/-- `String.prototype.replaceAll` with a non-empty string pattern `p :: ps`:
scan the subject left to right; at each occurrence insert the
`GetSubstitution` expansion of the replacement and resume after the
occurrence.  `str` is the full subject, `pos` the position of the current
character in it, and `skip` the number of pattern characters of the current
occurrence still to be consumed. -/
def replaceGo (p : Char) (ps repl str : List Char) :
    Nat → Nat → List Char → List Char
  | _, _, [] => []
  | skip + 1, pos, _ :: cs => replaceGo p ps repl str skip (pos + 1) cs
  | 0, pos, c :: cs =>
    if (p :: ps).isPrefixOf (c :: cs) then
      getSubstitution str pos (ps.length + 1) repl ++
        replaceGo p ps repl str ps.length (pos + 1) cs
    else
      c :: replaceGo p ps repl str 0 (pos + 1) cs

/-- `template.replaceAll(pat, repl)` for string arguments; the core only
calls it with the non-empty literal token, so the empty pattern is mapped to
the identity. -/
def replaceAll (s pat repl : String) : String :=
  match pat.data with
  | [] => s
  | p :: ps => ⟨replaceGo p ps repl.data s.data 0 0 s.data⟩

/-- The substitution described by the claim's words: every occurrence of
the pattern replaced by the replacement text spliced in literally, with no
dollar-pattern processing.  Stated from the claim, for comparison with the
program's `replaceAll`. -/
def spliceGo (p : Char) (ps repl : List Char) :
    Nat → List Char → List Char
  | _, [] => []
  | skip + 1, _ :: cs => spliceGo p ps repl skip cs
  | 0, c :: cs =>
    if (p :: ps).isPrefixOf (c :: cs) then
      repl ++ spliceGo p ps repl ps.length cs
    else
      c :: spliceGo p ps repl 0 cs

/-- Literal-splicing replacement of every occurrence, per the claim's
words. -/
def replaceAllLiteral (s pat repl : String) : String :=
  match pat.data with
  | [] => s
  | p :: ps => ⟨spliceGo p ps repl.data 0 s.data⟩

/-- The literal substitution token of the system prompt template. -/
def memoryBufferToken : String := "\x7bMEMORY_BUFFER\x7d"

/-- Modelled from the spec: the Mongo-backed `ConversationMessageDB`
implementation behind `listConversationMessages({limit, sort:"desc"})` is
not among the provided sources; per spec section 4.2.5 it returns the most
recent `count` records, newest first, for a store kept in insertion (time)
order. -/
def listConversationMessagesDesc (store : List ConvEntry) (count : Nat) :
    List ConvEntry :=
  store.reverse.take count

/-- The buffer message `getBuffer` rebuilds from a store record
(lines 253-271): display names come from the worker's identity. -/
def entryToBufferMessage (cfg : WorkerCtx) (item : ConvEntry) : BufferMessage :=
  match item.kind with
  | .user =>
    { kind := .user, name := cfg.userName, id := item.refId
      contents := item.contents, time := item.createdAt }
  | .actor =>
    { kind := .actor, name := cfg.actorName, id := item.refId
      contents := item.contents, time := item.createdAt }

/-- `ActorWorker.getBuffer(count)` (lines 247-272): list the most recent
`count` records in descending order, reverse them into forward time order,
and rebuild buffer messages. -/
def getBuffer (cfg : WorkerCtx) (store : List ConvEntry) (count : Nat) :
    List BufferMessage :=
  (listConversationMessagesDesc store count).reverse.map
    (entryToBufferMessage cfg)

/-- `ActorWorker.buildSystemPrompt` (lines 125-132): render the last-10
window one line per message (`None.` when empty) and substitute every
occurrence of the token in the template. -/
def buildSystemPrompt (cfg : WorkerCtx) (store : List ConvEntry)
    (systemPrompt : String) : String :=
  let bufferWindow := getBuffer cfg store 10
  let bufferText :=
    if bufferWindow.length = 0 then "None."
    else String.intercalate "\n" (bufferWindow.map bufferMessageToPrompt)
  replaceAll systemPrompt memoryBufferToken bufferText

/-- A replacement without any dollar character expands to itself. -/
theorem getSubstitution_no_dollar (str : List Char) (position matchedLen : Nat) :
    ∀ repl : List Char, dollarChar ∉ repl →
      getSubstitution str position matchedLen repl = repl := by
  intro repl
  induction repl with
  | nil => intro _; rw [getSubstitution.eq_def]
  | cons c rest ih =>
    intro h
    rw [getSubstitution.eq_def]
    have hc : ¬ c = dollarChar := by
      intro hx
      rw [hx] at h
      exact h (List.mem_cons_self _ _)
    simp only [hc, if_false]
    rw [ih (fun hx => h (List.mem_cons_of_mem c hx))]

/-- With a dollar-free replacement the program's substitution coincides with
the literal splicing the claim describes. -/
theorem replaceGo_no_dollar (p : Char) (ps repl str : List Char)
    (h : dollarChar ∉ repl) :
    ∀ (l : List Char) (skip pos : Nat),
      replaceGo p ps repl str skip pos l = spliceGo p ps repl skip l := by
  intro l
  induction l with
  | nil =>
    intro skip pos
    cases skip <;> rw [replaceGo, spliceGo]
  | cons c cs ih =>
    intro skip pos
    cases skip with
    | zero =>
      rw [replaceGo, spliceGo]
      by_cases hpre : (p :: ps).isPrefixOf (c :: cs) = true
      · simp only [hpre, if_true]
        rw [getSubstitution_no_dollar str pos (ps.length + 1) repl h, ih]
      · simp only [hpre, Bool.false_eq_true, if_false]
        rw [ih]
    | succ skip2 =>
      rw [replaceGo, spliceGo]
      exact ih skip2 (pos + 1)

theorem replaceGo_no_occurrence (p : Char) (ps repl str : List Char) :
    ∀ l : List Char, ¬ ((p :: ps) <:+: l) →
      ∀ pos : Nat, replaceGo p ps repl str 0 pos l = l := by
  intro l
  induction l with
  | nil => intro _ pos; rw [replaceGo]
  | cons c cs ih =>
    intro hnot pos
    rw [replaceGo]
    have hpre : (p :: ps).isPrefixOf (c :: cs) = false := by
      rw [Bool.eq_false_iff]
      intro hx
      exact hnot (List.isPrefixOf_iff_prefix.mp hx).isInfix
    rw [hpre]
    simp only [Bool.false_eq_true, if_false]
    have hcs : ¬ ((p :: ps) <:+: cs) := fun hx =>
      hnot (hx.trans (List.suffix_cons c cs).isInfix)
    rw [ih hcs]

/-- When the template contains no occurrence of the pattern, `replaceAll`
returns it unchanged. -/
theorem replaceAll_no_occurrence (s pat repl : String)
    (h : ¬ (pat.data <:+: s.data)) : replaceAll s pat repl = s := by
  rw [replaceAll]
  cases hpat : pat.data with
  | nil => rfl
  | cons p ps =>
    rw [hpat] at h
    show String.mk (replaceGo p ps repl.data s.data 0 0 s.data) = s
    rw [replaceGo_no_occurrence p ps repl.data s.data s.data h 0]

/-- When the replacement contains no dollar character, `replaceAll` is the
literal splicing the claim describes. -/
theorem replaceAll_no_dollar (s pat repl : String)
    (h : dollarChar ∉ repl.data) :
    replaceAll s pat repl = replaceAllLiteral s pat repl := by
  rw [replaceAll, replaceAllLiteral]
  cases hpat : pat.data with
  | nil => rfl
  | cons p ps =>
    show String.mk (replaceGo p ps repl.data s.data 0 0 s.data) =
      String.mk (spliceGo p ps repl.data 0 s.data)
    rw [replaceGo_no_dollar p ps repl.data s.data h s.data 0 0]

/-! ### Claim C7: system prompt assembly -/

/-- A store record whose user-typed text contains the dollar-ampersand
substitution pattern. -/
def dollarEntry : ConvEntry :=
  { conversationId := 3, kind := .user, refId := 1
    contents := [.text "$&"], createdAt := 4 }

/-- A template with one token occurrence. -/
def dollarTemplate : String := "A \x7bMEMORY_BUFFER\x7d B"

/-- Counterexample to C7 as stated: a stored message whose text contains
`$&` makes `replaceAll` insert the matched token itself instead of the
rendering, so the token occurrence is not replaced by the one-per-line
textual rendering: the program's output differs from the
literal-replacement output the claim describes (and still contains the
token). -/
theorem buildSystemPrompt_dollar_cex :
    buildSystemPrompt workerCtx0 [dollarEntry] dollarTemplate =
      "A [4] User: \x7bMEMORY_BUFFER\x7d B" ∧
    replaceAllLiteral dollarTemplate memoryBufferToken
      (String.intercalate "\n"
        ((getBuffer workerCtx0 [dollarEntry] 10).map bufferMessageToPrompt)) =
      "A [4] User: $& B" ∧
    buildSystemPrompt workerCtx0 [dollarEntry] dollarTemplate ≠
      replaceAllLiteral dollarTemplate memoryBufferToken
        (String.intercalate "\n"
          ((getBuffer workerCtx0 [dollarEntry] 10).map
            bufferMessageToPrompt)) := by
  refine ⟨by decide, by decide, by decide⟩

/-- C7 (amended): `buildSystemPrompt` reads the most recent 10 store records
in forward time order (the last 10 of the insertion-ordered store) and
substitutes every token occurrence with the JavaScript string-replacement
expansion of their one-per-line rendering — the rendering is spliced in
literally exactly as the claim states when it contains no dollar character,
but `$$`, `$&`, dollar-backquote and dollar-quote sequences inside rendered
messages are expanded; the empty window substitutes the literal `None.`
(dollar-free, hence literal); a template containing no token occurrence is
returned unchanged. -/
theorem buildSystemPrompt_spec (cfg : WorkerCtx) (store : List ConvEntry)
    (template : String) :
    getBuffer cfg store 10 =
      (store.drop (store.length - 10)).map (entryToBufferMessage cfg) ∧
    buildSystemPrompt cfg store template =
      replaceAll template memoryBufferToken
        (if (getBuffer cfg store 10).length = 0 then "None."
          else String.intercalate "\n"
            ((getBuffer cfg store 10).map bufferMessageToPrompt)) ∧
    (dollarChar ∉ (String.intercalate "\n"
        ((getBuffer cfg store 10).map bufferMessageToPrompt)).data →
      buildSystemPrompt cfg store template =
        replaceAllLiteral template memoryBufferToken
          (if (getBuffer cfg store 10).length = 0 then "None."
            else String.intercalate "\n"
              ((getBuffer cfg store 10).map bufferMessageToPrompt))) ∧
    (store = [] →
      buildSystemPrompt cfg store template =
        replaceAllLiteral template memoryBufferToken "None.") ∧
    (¬ (memoryBufferToken.data <:+: template.data) →
      buildSystemPrompt cfg store template = template) := by
  refine ⟨?_, rfl, ?_, ?_, ?_⟩
  · rw [getBuffer, listConversationMessagesDesc,
      List.take_reverse, List.reverse_reverse]
  · intro h
    rw [buildSystemPrompt]
    by_cases hlen : (getBuffer cfg store 10).length = 0
    · simp only [hlen, if_true]
      exact replaceAll_no_dollar template memoryBufferToken "None." (by decide)
    · simp only [hlen, if_false]
      exact replaceAll_no_dollar template memoryBufferToken _ h
  · intro hstore
    subst hstore
    rw [buildSystemPrompt]
    simp only [getBuffer, listConversationMessagesDesc, List.reverse_nil,
      List.take_nil, List.map_nil, List.length_nil, if_true]
    exact replaceAll_no_dollar template memoryBufferToken "None." (by decide)
  · intro hnot
    rw [buildSystemPrompt]
    exact replaceAll_no_occurrence template memoryBufferToken _ hnot

theorem buildSystemPrompt_spec_witness :
    (getBuffer workerCtx0 [] 10 =
      (([] : List ConvEntry).drop 0).map (entryToBufferMessage workerCtx0)) ∧
    buildSystemPrompt workerCtx0 [] "Hello" =
      replaceAllLiteral "Hello" memoryBufferToken "None." ∧
    buildSystemPrompt workerCtx0 [] "Hello" = "Hello" := by
  obtain ⟨h1, _, _, h4, h5⟩ := buildSystemPrompt_spec workerCtx0 [] "Hello"
  exact ⟨h1, h4 rfl, h5 (by decide)⟩

/-! ## `processQueue`, abort and resume (`actor.ts` lines 283-344)

`processQueue` launches the agent run and suspends at
`await this.currentRunPromise` (line 317); that registers its continuation
on the run promise at launch time.  A later `work` call that finds the
worker busy suspends at `await this.currentRunPromise` inside
`abortCurrentRun` (line 343), registering its continuation afterwards.
JavaScript runs the reactions of a settled promise in registration order,
so when the aborted run completes, the `processQueue` continuation — the
`finally` block (lines 318-326) and the next `while` iteration up to its
first `await` — runs BEFORE the `work` continuation (line 174, the
`resumeStateAfterAbort` assignment).  In the fresh-build branch the next
iteration suspends inside `await this.buildSystemPrompt(...)` (line 298),
which is where the `work` continuation gets to run; the build then completes
and clears `resumeStateAfterAbort` (line 312) before launching the new run.
The functions below embed those continuation segments in that order. -/

/-- Which branch the head of a `processQueue` iteration selected, with the
drained batches. -/
inductive BranchTaken where
  | resumeBranch (batches : List BufferMessage)
  | freshBranch (batches : List BufferMessage)
deriving Repr, DecidableEq

/-- The `processQueue` continuation that runs when the current run's promise
resolves: the `finally` block (clear `currentRunPromise`; clear `agentState`
unless resuming; go idle when the queue is empty and not resuming) followed
by the `while` head (drain the queue into `batches`, set status `preparing`,
and select the resume or fresh branch). -/
def runResolvedCont (st : WorkerState) : WorkerState × Option BranchTaken :=
  let st1 := { st with runActive := false }
  let st2 := if st1.resumeStateAfterAbort then st1
    else { st1 with agentState := none }
  let st3 := if st2.queue.isEmpty && !st2.resumeStateAfterAbort then
    setStatus st2 .idle else st2
  if st3.queue.isEmpty then (st3, none)
  else
    let st4 := setStatus st3 .preparing
    let batches := st4.queue
    let st5 := { st4 with queue := [] }
    if st5.resumeStateAfterAbort && st5.agentState.isSome then
      (st5, some (.resumeBranch batches))
    else
      (st5, some (.freshBranch batches))

/-- The `work` continuation after `abortCurrentRun()` resolves (line 174):
`resumeStateAfterAbort := !hasEmaReplyInRun`. -/
def workAbortCont (st : WorkerState) : WorkerState :=
  { st with resumeStateAfterAbort := !st.hasEmaReplyInRun }

/-- The fresh `AgentState` built for a batch (lines 297-310): system prompt
from the template via the memory buffer, messages from the batches; tools
and tool context come from the constant configuration. -/
def freshAgentState (cfg : WorkerCtx) (store : List ConvEntry)
    (batches : List BufferMessage) : AgentStateW :=
  { systemPrompt := buildSystemPrompt cfg store cfg.systemPromptTemplate
    messages := batches.map bufferMessageToUserMessage }

/-- The tail of a fresh-branch iteration once `buildSystemPrompt` resolves
(lines 297-315): assign the fresh state, clear `resumeStateAfterAbort` and
`hasEmaReplyInRun`, set status `running` and launch the run. -/
def processBuildCont (cfg : WorkerCtx) (store : List ConvEntry)
    (st : WorkerState) (batches : List BufferMessage) : WorkerState :=
  let st1 := { st with agentState := some (freshAgentState cfg store batches) }
  let st2 := { st1 with resumeStateAfterAbort := false
                        hasEmaReplyInRun := false }
  let st3 := setStatus st2 .running
  { st3 with runActive := true }

/-- The resume-branch iteration (lines 292-295 and 312-315): append the
batches to the retained state as user messages (no `await` occurs before the
relaunch), clear the flags, set status `running` and launch. -/
def processResumeCont (st : WorkerState) (batches : List BufferMessage) :
    WorkerState :=
  let st1 := { st with agentState := st.agentState.map (fun (s : AgentStateW) =>
    { s with messages :=
      s.messages ++ batches.map bufferMessageToUserMessage }) }
  let st2 := { st1 with resumeStateAfterAbort := false
                        hasEmaReplyInRun := false }
  let st3 := setStatus st2 .running
  { st3 with runActive := true }

/-- The canonical execution of `work(inputs)` arriving while a run is
active: the synchronous prefix of `work` (queue push, write enqueue, abort
request); the aborted run's `runFinished{msg:"Aborted"}` event forwarded
through `emitEvent`; then, when the run promise resolves, its reactions in
registration order — the `processQueue` continuation first (`finally` block
and branch selection), the `work` continuation (`resumeStateAfterAbort`
assignment) during the fresh branch's `buildSystemPrompt` suspension, and
finally the completion of the build and the relaunch. -/
def workDuringRunScenario (cfg : WorkerCtx) (now : Nat)
    (store : List ConvEntry) (st : WorkerState) (inputs : List Content) :
    WorkerState :=
  let st1 := (work cfg now st inputs).1
  let st2 := emitEvent cfg now st1 (.agent (.runFinished false "Aborted" true))
  match runResolvedCont st2 with
  | (st3, some (.freshBranch batches)) =>
    processBuildCont cfg store (workAbortCont st3) batches
  | (st3, some (.resumeBranch batches)) =>
    workAbortCont (processResumeCont st3 batches)
  | (st3, none) => workAbortCont st3

/-- A worker in the middle of a run over agent state `S`, with no
`emaReplyReceived` emitted in the run and an empty queue. -/
def runningWorkerState (S : AgentStateW) : WorkerState :=
  { currentStatus := .running, agentState := some S, queue := []
    hasEmaReplyInRun := false, resumeStateAfterAbort := false
    runActive := true, pipeline := [], emitted := [], log := [] }

/-! ### Claim C1: abort-resume correctness -/

/-- C1 (evaluation at the failing configuration): a `work([text m])` call
arriving while a run over state `S` is active and **no** `emaReplyReceived`
has been emitted does abort the run, but the next run starts from a freshly
built `AgentState` containing exactly the new user message — not from `S`
extended with it, as the claim requires.  The `resumeStateAfterAbort := true`
written by `work` lands only after `processQueue`'s continuation has already
cleared `agentState` and selected the fresh branch, and is itself erased by
line 312 before the relaunch. -/
theorem abort_resume_lost (cfg : WorkerCtx) (now : Nat)
    (store : List ConvEntry) (S : AgentStateW) (m : String)
    (hmsg : S.messages ≠ []) :
    (runningWorkerState S).hasEmaReplyInRun = false ∧
    (workDuringRunScenario cfg now store (runningWorkerState S)
        [.text m]).agentState =
      some (freshAgentState cfg store
        [bufferMessageFromUser cfg.userId cfg.userName [.text m] now]) ∧
    (workDuringRunScenario cfg now store (runningWorkerState S)
        [.text m]).agentState ≠
      some { S with messages := S.messages ++
        [bufferMessageToUserMessage
          (bufferMessageFromUser cfg.userId cfg.userName [.text m] now)] } := by
  have hval : (workDuringRunScenario cfg now store (runningWorkerState S)
      [.text m]).agentState =
      some (freshAgentState cfg store
        [bufferMessageFromUser cfg.userId cfg.userName [.text m] now]) := by
    simp [workDuringRunScenario, work, emitEvent, enqueueBufferWrite, deliver,
      runResolvedCont, workAbortCont, processBuildCont, setStatus, isBusy,
      runningWorkerState, Content.isText, Content.textOf]
  refine ⟨rfl, hval, ?_⟩
  rw [hval]
  intro heq
  have hmessages := congrArg (fun o => (o.map AgentStateW.messages).map
    List.length) heq
  simp [freshAgentState, bufferMessageToUserMessage] at hmessages
  cases hS : S.messages with
  | nil => exact hmsg hS
  | cons a as =>
    rw [hS] at hmessages
    simp at hmessages

/-- Concrete witness: a run whose state already holds one user message and
has produced no reply is aborted by a new `work`; the follow-up run's state
is fresh. -/
def priorAgentState : AgentStateW :=
  { systemPrompt := "sp", messages := [.user [.text "hi"]] }

theorem abort_resume_lost_witness :
    (runningWorkerState priorAgentState).hasEmaReplyInRun = false ∧
    (workDuringRunScenario workerCtx0 9 [] (runningWorkerState priorAgentState)
        [.text "again"]).agentState =
      some (freshAgentState workerCtx0 []
        [bufferMessageFromUser 1 "User" [.text "again"] 9]) ∧
    (workDuringRunScenario workerCtx0 9 [] (runningWorkerState priorAgentState)
        [.text "again"]).agentState ≠
      some { priorAgentState with messages := priorAgentState.messages ++
        [bufferMessageToUserMessage
          (bufferMessageFromUser 1 "User" [.text "again"] 9)] } :=
  abort_resume_lost workerCtx0 9 [] priorAgentState "again" (by simp [priorAgentState])

/-! ## Server actor registry (`server.ts`, `Server.getActor`)

`getActor` is single-threaded JavaScript: the synchronous prefix (cache
lookup, in-flight lookup, creation of the in-flight promise and setting of
its marker) runs atomically; the construction body suspends at its first
`await` and settles later.  When the in-flight promise settles, the worker
registration (on success; `actors.set` runs inside the flight, before it
resolves) and the `finally { actorInFlight.delete(key) }` of every awaiting
caller all run in the microtask drain that follows, before any later
`getActor` call (calls enter from macrotasks, and reactions to reactions
run after all direct reactions).  A trace is therefore a sequence of two
atomic kinds of step: a `call` and the settlement of the construction
in flight for a key.  Since `actorInFlight` is keyed by the actor key,
at most one construction per key is in flight at a time and flights are
identified by their key.  A worker is constructed exactly by a successful
flight: the failure points (`getUser`, `upsertConversation`) precede
`new ActorWorker`, and registration directly follows it. -/

/-- `actorKey`: the string key of the registry maps. -/
def actorKey (userId actorId conversationId : Nat) : String :=
  toString userId ++ ":" ++ toString actorId ++ ":" ++ toString conversationId

/-- Registry state: keys with a cached worker (`actors`), keys with a
construction in flight (`actorInFlight`), and one entry per successful
construction over the process lifetime (`constructed`). -/
structure RegState where
  actors : List String
  inflight : List String
  constructed : List String
deriving Repr, DecidableEq

/-- One atomic registry step. -/
inductive RegCmd where
  | call (k : String)
  | settleOk (k : String)
  | settleFail (k : String)
deriving Repr, DecidableEq

/-- The registry transition: a `call` is served from the cache, joins the
in-flight construction, or starts one (setting the marker); a successful
settlement registers the worker and removes the marker; a failed settlement
just removes the marker, so a later call retries from scratch. -/
def regStep (st : RegState) : RegCmd → RegState
  | .call k =>
    if k ∈ st.actors then st
    else if k ∈ st.inflight then st
    else { st with inflight := k :: st.inflight }
  | .settleOk k =>
    if k ∈ st.inflight then
      { actors := k :: st.actors
        inflight := st.inflight.filter (fun x => x ≠ k)
        constructed := k :: st.constructed }
    else st
  | .settleFail k =>
    if k ∈ st.inflight then
      { st with inflight := st.inflight.filter (fun x => x ≠ k) }
    else st

/-- The empty registry of a fresh process. -/
def regInit : RegState := { actors := [], inflight := [], constructed := [] }

/-- Run a trace of registry steps. -/
def runReg (cmds : List RegCmd) : RegState :=
  cmds.foldl regStep regInit

/-- The registry invariant: at most one successful construction per key,
a key is cached exactly when a construction for it succeeded, and no
construction is in flight for a cached key. -/
def RegInv (st : RegState) : Prop :=
  ∀ k : String,
    st.constructed.count k ≤ 1 ∧
    (k ∈ st.actors ↔ st.constructed.count k = 1) ∧
    (k ∈ st.inflight → k ∉ st.actors)

theorem regInv_init : RegInv regInit := by
  intro k
  simp [regInit, RegInv]

theorem regInv_step (st : RegState) (c : RegCmd) (h : RegInv st) :
    RegInv (regStep st c) := by
  cases c with
  | call k =>
    by_cases hq1 : k ∈ st.actors
    · have hstep : regStep st (.call k) = st := by simp [regStep, hq1]
      rw [hstep]
      exact h
    · by_cases hq2 : k ∈ st.inflight
      · have hstep : regStep st (.call k) = st := by simp [regStep, hq1, hq2]
        rw [hstep]
        exact h
      · have hstep : regStep st (.call k) =
            { st with inflight := k :: st.inflight } := by
          simp [regStep, hq1, hq2]
        rw [hstep]
        intro q
        obtain ⟨h1, h2, h3⟩ := h q
        refine ⟨h1, h2, ?_⟩
        intro hmem
        rcases List.mem_cons.mp hmem with rfl | hmem2
        · exact hq1
        · exact h3 hmem2
  | settleOk k =>
    by_cases hq : k ∈ st.inflight
    · have hknotact : k ∉ st.actors := (h k).2.2 hq
      have hcount0 : st.constructed.count k = 0 := by
        rcases Nat.eq_zero_or_pos (st.constructed.count k) with hz | hpos
        · exact hz
        · have hle := (h k).1
          exact absurd ((h k).2.1.mpr (by omega)) hknotact
      have hstep : regStep st (.settleOk k) =
          { actors := k :: st.actors
            inflight := st.inflight.filter (fun x => x ≠ k)
            constructed := k :: st.constructed } := by
        simp [regStep, hq]
      rw [hstep]
      intro q
      obtain ⟨h1, h2, h3⟩ := h q
      by_cases hqk : q = k
      · subst hqk
        refine ⟨?_, ?_, ?_⟩
        · simp [List.count_cons, hcount0]
        · simp [List.count_cons, hcount0]
        · intro hmem
          exact absurd (List.mem_filter.mp hmem).2 (by simp)
      · refine ⟨?_, ?_, ?_⟩
        · simpa [List.count_cons, hqk] using h1
        · simpa [List.mem_cons, List.count_cons, hqk] using h2
        · intro hmem
          have hmemq : q ∈ st.inflight := (List.mem_filter.mp hmem).1
          simp only [List.mem_cons, not_or]
          exact ⟨hqk, h3 hmemq⟩
    · have hstep : regStep st (.settleOk k) = st := by simp [regStep, hq]
      rw [hstep]
      exact h
  | settleFail k =>
    by_cases hq : k ∈ st.inflight
    · have hstep : regStep st (.settleFail k) =
          { st with inflight := st.inflight.filter (fun x => x ≠ k) } := by
        simp [regStep, hq]
      rw [hstep]
      intro q
      obtain ⟨h1, h2, h3⟩ := h q
      exact ⟨h1, h2, fun hmem => h3 (List.mem_filter.mp hmem).1⟩
    · have hstep : regStep st (.settleFail k) = st := by simp [regStep, hq]
      rw [hstep]
      exact h

theorem regInv_run (cmds : List RegCmd) : RegInv (runReg cmds) := by
  rw [runReg]
  have hgen : ∀ (st : RegState), RegInv st → RegInv (cmds.foldl regStep st) := by
    induction cmds with
    | nil => intro st h; simpa using h
    | cons c rest ih =>
      intro st h
      exact ih (regStep st c) (regInv_step st c h)
  exact hgen regInit regInv_init

/-! ### Claim C5: registry single-flight -/

/-- C5: over any process-lifetime trace of `getActor` calls and
construction settlements, at most one worker is successfully constructed
per key; a call for a cached key returns it without touching the registry
(the cached instance is shared); a call while a construction for the key is
in flight joins it without starting another; and a failed construction
removes the in-flight marker, so a subsequent call starts construction from
scratch. -/
theorem registry_single_flight (cmds : List RegCmd) (st : RegState)
    (k : String) :
    (runReg cmds).constructed.count k ≤ 1 ∧
    (k ∈ st.actors → regStep st (.call k) = st) ∧
    (k ∉ st.actors → k ∈ st.inflight → regStep st (.call k) = st) ∧
    (k ∉ (regStep st (.settleFail k)).inflight ∧
      (k ∉ st.actors → k ∉ st.inflight →
        regStep st (.call k) = { st with inflight := k :: st.inflight })) := by
  refine ⟨(regInv_run cmds k).1, ?_, ?_, ?_, ?_⟩
  · intro hk
    simp [regStep, hk]
  · intro hk1 hk2
    simp [regStep, hk1, hk2]
  · by_cases hk : k ∈ st.inflight
    · have hstep : regStep st (.settleFail k) =
          { st with inflight := st.inflight.filter (fun x => x ≠ k) } := by
        simp [regStep, hk]
      rw [hstep]
      intro hmem
      exact absurd (List.mem_filter.mp hmem).2 (by simp)
    · have hstep : regStep st (.settleFail k) = st := by simp [regStep, hk]
      rw [hstep]
      exact hk
  · intro hk1 hk2
    simp [regStep, hk1, hk2]

/-- Concrete witness: two interleaved callers for one key, a failure, a
retry, a success and a late duplicate call construct exactly one worker. -/
def regTrace0 : List RegCmd :=
  [.call "1:2:3", .call "1:2:3", .settleFail "1:2:3", .call "1:2:3",
    .settleOk "1:2:3", .call "1:2:3"]

theorem registry_single_flight_witness :
    (runReg regTrace0).constructed.count "1:2:3" ≤ 1 ∧
    ("1:2:3" ∈ regInit.actors → regStep regInit (.call "1:2:3") = regInit) ∧
    ("1:2:3" ∉ (regStep regInit (.settleFail "1:2:3")).inflight) ∧
    (runReg regTrace0).constructed.count "1:2:3" = 1 := by
  obtain ⟨h1, h2, _, h4, _⟩ :=
    registry_single_flight regTrace0 regInit "1:2:3"
  exact ⟨h1, h2, h4, by decide⟩

/-! ## Job scheduler (`scheduler/scheduler.ts`, `AgendaScheduler`)

The Agenda library is an external collaborator; its job store is modelled
as a table of persisted jobs by id plus the set of ids currently executing.
`loadJob` wraps `agenda.getForkedJob(id)` (a missing job throws; the
`catch` turns that into `null`), `isRunning` wraps `job.isRunning()`,
`job.remove()` deletes the persisted job and resolves to the number of
removed documents, `job.schedule(runAt)` sets the next run time, and
`job.save()` persists the mutated attributes. -/

/-- The mutable spec of a job: `{name, data, runAt}`. -/
structure JobSpec where
  name : String
  data : String
  runAt : Nat
deriving Repr, DecidableEq

/-- A persisted Agenda job record. -/
structure JobRec where
  name : String
  data : String
  nextRunAt : Nat
deriving Repr, DecidableEq

/-- The Agenda store: persisted jobs by id and the currently running ids. -/
structure AgendaStore where
  jobs : List (String × JobRec)
  running : List String
deriving Repr, DecidableEq

/-- `loadJob(id)`: the persisted record, or `none` when missing. -/
def loadJob (st : AgendaStore) (id : String) : Option JobRec :=
  (st.jobs.find? (fun p => p.1 == id)).map Prod.snd

/-- `isRunning(job)`: whether the job is currently executing. -/
def isRunningJob (st : AgendaStore) (id : String) : Bool :=
  st.running.contains id

/-- `job.save()`: persist the mutated record under its id. -/
def saveJob (st : AgendaStore) (id : String) (j : JobRec) : AgendaStore :=
  { st with jobs := st.jobs.map (fun p => if p.1 == id then (id, j) else p) }

/-- `job.remove()`: delete the persisted job; the second component is the
number of removed documents. -/
def removeJob (st : AgendaStore) (id : String) : AgendaStore × Nat :=
  ({ st with jobs := st.jobs.filter (fun p => p.1 != id) },
    (st.jobs.filter (fun p => p.1 == id)).length)

/-- `AgendaScheduler.cancel` (lines 145-158): load the job (missing →
`false`); refuse while running; otherwise remove it and report whether a
document was removed. -/
def cancel (st : AgendaStore) (id : String) : AgendaStore × Bool :=
  match loadJob st id with
  | none => (st, false)
  | some _ =>
    if isRunningJob st id then (st, false)
    else
      ((removeJob st id).1, decide (0 < (removeJob st id).2))

/-- `AgendaScheduler.reschedule` (lines 122-138): load the job (missing →
`false`); refuse while running; otherwise overwrite name, data and runAt
and persist. -/
def reschedule (st : AgendaStore) (id : String) (spec : JobSpec) :
    AgendaStore × Bool :=
  match loadJob st id with
  | none => (st, false)
  | some j =>
    if isRunningJob st id then (st, false)
    else
      (saveJob st id
        { j with name := spec.name, data := spec.data, nextRunAt := spec.runAt },
        true)

theorem loadJob_removeJob (st : AgendaStore) (id : String) :
    loadJob (removeJob st id).1 id = none := by
  rw [loadJob, removeJob]
  have hfind : List.find? (fun p => p.1 == id)
      (st.jobs.filter (fun p => p.1 != id)) = none := by
    rw [List.find?_eq_none]
    intro p hp
    have h2 := (List.mem_filter.mp hp).2
    simp only [bne_iff_ne, ne_eq, decide_eq_true_eq] at h2
    simp [h2]
  simp [hfind]

theorem removeJob_pos (st : AgendaStore) (id : String)
    (h : (loadJob st id).isSome = true) : 0 < (removeJob st id).2 := by
  rw [loadJob] at h
  obtain ⟨p, hp⟩ : ∃ p, st.jobs.find? (fun p => p.1 == id) = some p := by
    cases hfind : st.jobs.find? (fun p => p.1 == id) with
    | none => rw [hfind] at h; simp at h
    | some p => exact ⟨p, rfl⟩
  have hmem : p ∈ st.jobs := List.mem_of_find?_eq_some hp
  have hpid := List.find?_some hp
  have hlen : 0 < (st.jobs.filter (fun p => p.1 == id)).length :=
    List.length_pos_of_mem (List.mem_filter.mpr ⟨hmem, hpid⟩)
  simpa [removeJob] using hlen

theorem find?_map_overwrite (id : String) (newJob : JobRec) :
    ∀ (l : List (String × JobRec)) (p : String × JobRec),
      l.find? (fun q => q.1 == id) = some p →
      (l.map (fun q => if q.1 == id then (id, newJob) else q)).find?
        (fun q => q.1 == id) = some (id, newJob) := by
  intro l
  induction l with
  | nil => intro p hp; simp at hp
  | cons q rest ih =>
    intro p hp
    by_cases hq : (q.1 == id) = true
    · simp only [List.map_cons, hq, if_true]
      exact List.find?_cons_of_pos _ (by simp)
    · simp only [List.map_cons, hq, Bool.false_eq_true, if_false]
      rw [List.find?_cons_of_neg _ (by simpa using hq)] at hp
      rw [List.find?_cons_of_neg _ (by simpa using hq)]
      exact ih p hp

theorem loadJob_saveJob (st : AgendaStore) (id : String) (j newJob : JobRec)
    (h : loadJob st id = some j) :
    loadJob (saveJob st id newJob) id = some newJob := by
  rw [loadJob] at h
  obtain ⟨p, hp⟩ : ∃ p, st.jobs.find? (fun p => p.1 == id) = some p := by
    cases hfind : st.jobs.find? (fun p => p.1 == id) with
    | none => rw [hfind] at h; simp at h
    | some p => exact ⟨p, rfl⟩
  rw [loadJob, saveJob]
  simp only
  rw [find?_map_overwrite id newJob st.jobs p hp]
  rfl

/-! ### Claim C9: scheduler cancel and reschedule postconditions -/

/-- C9: `cancel(id)` returns `true` and deletes the persisted job exactly
when the job exists and is not currently running, and otherwise returns
`false` leaving the store unchanged; `reschedule(id, spec)` overwrites the
job's name, data and runAt and persists them, returning `true`, exactly when
the job exists and is not currently running, and otherwise returns `false`
leaving the store unchanged. -/
theorem scheduler_cancel_reschedule (st : AgendaStore) (id : String)
    (spec : JobSpec) :
    ((cancel st id).2 = true ↔
      (loadJob st id).isSome = true ∧ isRunningJob st id = false) ∧
    ((loadJob st id).isSome = true → isRunningJob st id = false →
      loadJob (cancel st id).1 id = none) ∧
    ((cancel st id).2 = false → (cancel st id).1 = st) ∧
    ((reschedule st id spec).2 = true ↔
      (loadJob st id).isSome = true ∧ isRunningJob st id = false) ∧
    ((loadJob st id).isSome = true → isRunningJob st id = false →
      loadJob (reschedule st id spec).1 id =
        some { name := spec.name, data := spec.data, nextRunAt := spec.runAt }) ∧
    ((reschedule st id spec).2 = false → (reschedule st id spec).1 = st) := by
  refine ⟨?_, ?_, ?_, ?_, ?_, ?_⟩
  · constructor
    · intro htrue
      cases hload : loadJob st id with
      | none => rw [cancel, hload] at htrue; simp at htrue
      | some j =>
        refine ⟨rfl, ?_⟩
        by_cases hrun : isRunningJob st id = true
        · rw [cancel, hload] at htrue
          simp [hrun] at htrue
        · simpa using hrun
    · rintro ⟨hsome, hrun⟩
      cases hload : loadJob st id with
      | none => rw [hload] at hsome; simp at hsome
      | some j =>
        rw [cancel, hload]
        simp only [hrun, Bool.false_eq_true, if_false]
        simpa using removeJob_pos st id hsome
  · intro hsome hrun
    cases hload : loadJob st id with
    | none => rw [hload] at hsome; simp at hsome
    | some j =>
      rw [cancel, hload]
      simp only [hrun, Bool.false_eq_true, if_false]
      exact loadJob_removeJob st id
  · intro hfalse
    cases hload : loadJob st id with
    | none => rw [cancel, hload]
    | some j =>
      by_cases hrun : isRunningJob st id = true
      · rw [cancel, hload]
        simp [hrun]
      · rw [cancel, hload] at hfalse ⊢
        simp only [Bool.not_eq_true] at hrun
        simp only [hrun, Bool.false_eq_true, if_false] at hfalse
        have := removeJob_pos st id (by rw [hload]; rfl)
        simp at hfalse
        omega
  · constructor
    · intro htrue
      cases hload : loadJob st id with
      | none => rw [reschedule, hload] at htrue; simp at htrue
      | some j =>
        refine ⟨rfl, ?_⟩
        by_cases hrun : isRunningJob st id = true
        · rw [reschedule, hload] at htrue
          simp [hrun] at htrue
        · simpa using hrun
    · rintro ⟨hsome, hrun⟩
      cases hload : loadJob st id with
      | none => rw [hload] at hsome; simp at hsome
      | some j =>
        rw [reschedule, hload]
        simp [hrun]
  · intro hsome hrun
    cases hload : loadJob st id with
    | none => rw [hload] at hsome; simp at hsome
    | some j =>
      rw [reschedule, hload]
      simp only [hrun, Bool.false_eq_true, if_false]
      exact loadJob_saveJob st id j _ hload
  · intro hfalse
    cases hload : loadJob st id with
    | none => rw [reschedule, hload]
    | some j =>
      by_cases hrun : isRunningJob st id = true
      · rw [reschedule, hload]
        simp [hrun]
      · rw [reschedule, hload] at hfalse
        simp [hrun] at hfalse

/-- A concrete store: one pending job, one running job. -/
def agendaStore0 : AgendaStore :=
  { jobs := [("job1", { name := "test", data := "x", nextRunAt := 100 }),
      ("job2", { name := "busy", data := "y", nextRunAt := 50 })]
    running := ["job2"] }

theorem scheduler_cancel_reschedule_witness :
    ((cancel agendaStore0 "job1").2 = true ↔
      (loadJob agendaStore0 "job1").isSome = true ∧
        isRunningJob agendaStore0 "job1" = false) ∧
    loadJob (cancel agendaStore0 "job1").1 "job1" = none ∧
    (cancel agendaStore0 "job3").1 = agendaStore0 ∧
    loadJob (reschedule agendaStore0 "job1"
        { name := "test2", data := "z", runAt := 200 }).1 "job1" =
      some { name := "test2", data := "z", nextRunAt := 200 } ∧
    (reschedule agendaStore0 "job2"
        { name := "test2", data := "z", runAt := 200 }).1 = agendaStore0 := by
  refine ⟨(scheduler_cancel_reschedule agendaStore0 "job1"
      { name := "test2", data := "z", runAt := 200 }).1, ?_, ?_, ?_, ?_⟩
  · exact (scheduler_cancel_reschedule agendaStore0 "job1"
      { name := "test2", data := "z", runAt := 200 }).2.1 (by decide) (by decide)
  · exact (scheduler_cancel_reschedule agendaStore0 "job3"
      { name := "test2", data := "z", runAt := 200 }).2.2.1 (by decide)
  · exact (scheduler_cancel_reschedule agendaStore0 "job1"
      { name := "test2", data := "z", runAt := 200 }).2.2.2.2.1
      (by decide) (by decide)
  · exact (scheduler_cancel_reschedule agendaStore0 "job2"
      { name := "test2", data := "z", runAt := 200 }).2.2.2.2.2 (by decide)

end EMA
